import Mathlib

/-!
Shallow embedding of the signet.js chain-adapter core.

JavaScript strings are modelled as `List Char`; Node `Buffer`s as `List Nat`
(each entry a byte value); a function that can throw returns an `Option`.
External library functions (ethers keccak256 and transaction serialization,
the MPC contract client) are passed in as explicit function parameters, since
they are collaborators outside this repository.
-/

/-- Value of a hex digit, accepting both cases, as Node's hex decoding does. -/
def hexDigitVal? (c : Char) : Option Nat :=
  if '0' ≤ c ∧ c ≤ '9' then some (c.toNat - '0'.toNat)
  else if 'a' ≤ c ∧ c ≤ 'f' then some (c.toNat - 'a'.toNat + 10)
  else if 'A' ≤ c ∧ c ≤ 'F' then some (c.toNat - 'A'.toNat + 10)
  else none

/-- Model of Node `Buffer.from(str, 'hex')`: decode hex pairs greedily,
stopping at the first invalid pair or at a dangling single character. -/
def bufferFromHex : List Char → List Nat
  | c1 :: c2 :: rest =>
    match hexDigitVal? c1, hexDigitVal? c2 with
    | some hi, some lo => (16 * hi + lo) :: bufferFromHex rest
    | _, _ => []
  | _ => []

/-- Lowercase hex digit for a nibble, as Node `buffer.toString('hex')` emits. -/
def hexOfNibble (n : Nat) : Char :=
  if n < 10 then Char.ofNat ('0'.toNat + n) else Char.ofNat ('a'.toNat + n - 10)

/-- Two lowercase hex digits of one byte. -/
def hexOfByte (b : Nat) : List Char :=
  [hexOfNibble (b / 16 % 16), hexOfNibble (b % 16)]

/-- Model of `buffer.toString('hex')`. -/
def hexOfBytes (bs : List Nat) : List Char :=
  (bs.map hexOfByte).flatten

/-- Model of JS `String.prototype.padStart(n, c)`: no-op when already long enough. -/
def jsPadStart (s : List Char) (n : Nat) (c : Char) : List Char :=
  List.replicate (n - s.length) c ++ s

/-- Model of JS `str.split(sep)` for a one-character separator. -/
def jsSplitAux (sep : Char) : List Char → List Char → List (List Char)
  | [], acc => [acc.reverse]
  | c :: rest, acc =>
    if c = sep then acc.reverse :: jsSplitAux sep rest []
    else jsSplitAux sep rest (c :: acc)

/-- JS `str.split(sep)`. -/
def jsSplit (sep : Char) (s : List Char) : List (List Char) :=
  jsSplitAux sep s []

/-- Model of JS `str.startsWith(p)`. -/
def jsStartsWith (s p : List Char) : Bool :=
  s.take p.length = p

/-- The bs58 alphabet used by near-api-js `base_decode`. -/
def base58Alphabet : List Char :=
  "123456789ABCDEFGHJKLMNPQRSTUVWXYZabcdefghijkmnopqrstuvwxyz".data

/-- Value of one base58 digit. -/
def base58DigitVal? (c : Char) : Option Nat :=
  base58Alphabet.indexOf? c

/-- Big-endian numeric value of a base58 digit string; `none` on a character
outside the alphabet (bs58 throws there). -/
def base58Num (cs : List Char) : Option Nat :=
  cs.foldlM (fun acc c => (base58DigitVal? c).map (fun d => acc * 58 + d)) 0

/-- Big-endian bytes of a natural number (empty for zero); the first argument
is fuel, always instantiated so it dominates the number of digits. -/
def natToBytesBEAux : Nat → Nat → List Nat
  | 0, _ => []
  | fuel + 1, n => if n = 0 then [] else natToBytesBEAux fuel (n / 256) ++ [n % 256]

/-- Big-endian bytes of a natural number. -/
def natToBytesBE (n : Nat) : List Nat :=
  natToBytesBEAux n n

/-- Model of near-api-js `base_decode` (bs58 decode): each leading `'1'`
contributes one zero byte, the remainder is interpreted as a base58 number. -/
def base_decode (s : List Char) : Option (List Nat) :=
  let leading := (s.takeWhile (fun c => c = '1')).length
  (base58Num (s.dropWhile (fun c => c = '1'))).map
    (fun n => List.replicate leading 0 ++ natToBytesBE n)

/-- `RSVSignature` from src/src/signature/types: r, s hex strings and a
recovery id. -/
structure RSVSignature where
  r : List Char
  s : List Char
  v : Nat
deriving DecidableEq

/-- Component `big_r` of an `MPCSignature`. -/
structure BigR where
  affine_point : List Char
deriving DecidableEq

/-- Component `s` of an `MPCSignature`. -/
structure ScalarS where
  scalar : List Char
deriving DecidableEq

/-- `MPCSignature` as consumed by `toRSV`. -/
structure MPCSignature where
  big_r : BigR
  s : ScalarS
  recovery_id : Nat
deriving DecidableEq

/-- src/src/signature/utils.ts `toRSV`: strip the two-character point tag from
`big_r.affine_point`, pass the scalar and recovery id through. -/
def toRSV (signature : MPCSignature) : RSVSignature :=
  { r := signature.big_r.affine_point.drop 2
  , s := signature.s.scalar
  , v := signature.recovery_id }

/-- src/src/signature/utils.ts `najToPubKey`: split the NEAR-format key on
`':'`, base58-decode the second part, put an `04` tag in front; on the
compress branch, validate that the remaining hex has length 128 and rebuild a
compressed key from the x coordinate and the parity of the y coordinate
(`parseInt(y.slice(-1), 16) % 2`). A `parseInt` result that is not a hex
digit is NaN in JS, which compares unequal to 0 mod 2, hence the `getD 1`. -/
def najToPubKey (najPubKey : List Char) (compress : Bool) : Option (List Char) :=
  match (jsSplit ':' najPubKey)[1]? with
  | none => none
  | some keyPart =>
    match base_decode keyPart with
    | none => none
    | some decoded =>
      let uncompressedPubKey := "04".data ++ hexOfBytes decoded
      if !compress then some uncompressedPubKey
      else
        let pubKeyHex :=
          if jsStartsWith uncompressedPubKey "04".data
          then uncompressedPubKey.drop 2 else uncompressedPubKey
        if pubKeyHex.length ≠ 128 then none
        else
          let x := pubKeyHex.take 64
          let y := pubKeyHex.drop 64
          let isEven := ((y.getLast?.bind hexDigitVal?).getD 1) % 2 = 0
          let tag := if isEven then "02".data else "03".data
          some (tag ++ x)

namespace Bitcoin

/-- src/unnamed/part_000 `Bitcoin.parseRSVSignature`: left-pad r and s to 64
hex characters each, hex-decode the concatenation, fail unless exactly 64
bytes result. -/
def parseRSVSignature (signature : RSVSignature) : Option (List Nat) :=
  let r := jsPadStart signature.r 64 '0'
  let s := jsPadStart signature.s 64 '0'
  let rawSignature := bufferFromHex (r ++ s)
  if rawSignature.length ≠ 64 then none
  else some rawSignature

/-- Observable events of the signing loop in `handleTransaction`: issuing the
signing request for an input index to the external MPC signer, and that
request completing (the `await` resuming). -/
inductive SignEvent where
  | request (index : Nat)
  | complete (index : Nat)
deriving DecidableEq

/-- Event trace of `for (let index = 0; index < inputs.length; index += 1)
{ await psbt.signInputAsync(index, keyPair) }` starting at `index`: each
iteration issues the request for its input and awaits its completion before
the next iteration begins. -/
def signLoopTrace (index n : Nat) : List SignEvent :=
  if index < n then
    SignEvent.request index :: SignEvent.complete index :: signLoopTrace (index + 1) n
  else []
termination_by n - index

/-- The signing-phase trace of `handleTransaction` on a transaction with `n`
inputs. -/
def handleTransactionSignTrace (n : Nat) : List SignEvent :=
  signLoopTrace 0 n

end Bitcoin

namespace EVM

/-- Fee-market fields returned by `fetchEVMFeeProperties` (an external
HTTP collaborator; its fetched values are parameters of the model). -/
structure EVMFeeProperties where
  maxFeePerGas : Nat
  maxPriorityFeePerGas : Nat
  gasLimit : Nat
deriving DecidableEq

/-- `EVMTransactionRequest`: the caller's request. The `from` and `to` fields are
named `fromAddr` and `toAddr` because both words are reserved in Lean. -/
structure EVMTransactionRequest where
  fromAddr : List Char
  toAddr : List Char
  value : Nat
  data : List Char
deriving DecidableEq

/-- `EVMUnsignedTransaction`: the request with fee-market fields, chain id,
nonce and type attached (and `from` removed); `to` is named `toAddr`. -/
structure EVMUnsignedTransaction where
  maxFeePerGas : Nat
  maxPriorityFeePerGas : Nat
  gasLimit : Nat
  chainId : Nat
  nonce : Nat
  type : Nat
  toAddr : List Char
  value : Nat
  data : List Char
deriving DecidableEq

/-- One mpcPayloads entry: a signing payload and its input index. -/
structure SigningPayload where
  index : Nat
  payload : List Nat
deriving DecidableEq

/-- src/src/chains/EVM/EVM.ts `attachGasAndNonce`: spread the fetched fees,
chain id, nonce and `type: 2` together with the request minus `from`. The
fetched fee fields, nonce and chain id are parameters because the fetches are
external RPC calls. -/
def attachGasAndNonce (fees : EVMFeeProperties) (chainId nonce : Nat)
    (transaction : EVMTransactionRequest) : EVMUnsignedTransaction :=
  { maxFeePerGas := fees.maxFeePerGas
  , maxPriorityFeePerGas := fees.maxPriorityFeePerGas
  , gasLimit := fees.gasLimit
  , chainId := chainId
  , nonce := nonce
  , type := 2
  , toAddr := transaction.toAddr
  , value := transaction.value
  , data := transaction.data }

/-- Model of `ethers.getBytes` on a `0x`-prefixed hex string. -/
def getBytes (hex : List Char) : List Nat :=
  bufferFromHex (if jsStartsWith hex "0x".data then hex.drop 2 else hex)

/-- src/src/chains/EVM/EVM.ts `getMPCPayloadAndTransaction`: attach gas and
nonce, serialize the unsigned transaction (`ethers.Transaction.from(...).
unsignedSerialized`, passed in as `unsignedSerialized`), keccak-256 it
(`keccak256`, passed in), and return the transaction with a single payload of
index 0 holding the hash bytes. -/
def getMPCPayloadAndTransaction (fees : EVMFeeProperties) (chainId nonce : Nat)
    (unsignedSerialized : EVMUnsignedTransaction → List Char)
    (keccak256 : List Char → List Char)
    (transactionRequest : EVMTransactionRequest) :
    EVMUnsignedTransaction × List SigningPayload :=
  let transaction := attachGasAndNonce fees chainId nonce transactionRequest
  let txSerialized := unsignedSerialized transaction
  let transactionHash := keccak256 txSerialized
  let txHash := getBytes transactionHash
  (transaction, [{ index := 0, payload := txHash }])

/-- src/src/chains/EVM/EVM.ts `parseSignature`: rebuild an ethers signature
object from the r, s, v components; at this level of the model the triple is
carried through unchanged. -/
def parseSignature (signature : RSVSignature) : RSVSignature :=
  { r := signature.r, s := signature.s, v := signature.v }

/-- src/src/chains/EVM/EVM.ts `addSignature`: serialize the transaction with
`mpcSignatures[0]` attached (`ethers.Transaction.from({...transaction,
signature}).serialized`, passed in as `serializeSigned`); indexing an empty
list is `undefined` and makes ethers throw, hence `none`. No index check of
any kind is performed. -/
def addSignature
    (serializeSigned : EVMUnsignedTransaction → RSVSignature → List Char)
    (transaction : EVMUnsignedTransaction)
    (mpcSignatures : List RSVSignature) : Option (List Char) :=
  (mpcSignatures[0]?).map (fun sig => serializeSigned transaction (parseSignature sig))

/-- src/src/chains/EVM/EVM.ts `deriveAddressAndPublicKey`, after the external
contract call returned `uncompressedPubKey`: fail on a falsy (empty) key,
strip a leading `04` if present, keccak-256 the remaining bytes (`keccak256`
passed in), and return `0x` plus the last 40 characters of the hash together
with the unchanged key. -/
def deriveAddressAndPublicKey (keccak256 : List Nat → List Char)
    (uncompressedPubKey : List Char) : Option (List Char × List Char) :=
  if uncompressedPubKey = [] then none
  else
    let publicKeyStripped :=
      if jsStartsWith uncompressedPubKey "04".data
      then uncompressedPubKey.drop 2 else uncompressedPubKey
    let hash := keccak256 (bufferFromHex publicKeyStripped)
    some ("0x".data ++ hash.drop (hash.length - 40), uncompressedPubKey)

end EVM

/-! ## Helper lemmas -/

theorem twoStepInduction {α : Type} {P : List α → Prop} (h0 : P []) (h1 : ∀ c, P [c])
    (h2 : ∀ c1 c2 rest, P rest → P (c1 :: c2 :: rest)) (l : List α) : P l := by
  have key : ∀ n (l : List α), l.length ≤ n → P l := by
    intro n
    induction n with
    | zero =>
      intro l hl
      match l with
      | [] => exact h0
    | succ n ih =>
      intro l hl
      match l with
      | [] => exact h0
      | [c] => exact h1 c
      | c1 :: c2 :: rest =>
        exact h2 c1 c2 rest (ih rest (by simp at hl; omega))
  exact key l.length l le_rfl

theorem bufferFromHex_nil : bufferFromHex [] = [] := rfl

theorem bufferFromHex_cons2 {c1 c2 : Char} {hi lo : Nat} (h1 : hexDigitVal? c1 = some hi)
    (h2 : hexDigitVal? c2 = some lo) (rest : List Char) :
    bufferFromHex (c1 :: c2 :: rest) = (16 * hi + lo) :: bufferFromHex rest := by
  simp [bufferFromHex, h1, h2]

theorem bufferFromHex_append (m : List Char) : ∀ l : List Char, l.length % 2 = 0 →
    (∀ c ∈ l, (hexDigitVal? c).isSome) →
    bufferFromHex (l ++ m) = bufferFromHex l ++ bufferFromHex m := by
  intro l
  induction l using twoStepInduction with
  | h0 => intro _ _; simp [bufferFromHex_nil]
  | h1 c => intro hev _; simp at hev
  | h2 c1 c2 rest ih =>
    intro hev hval
    obtain ⟨hi, hv1⟩ := Option.isSome_iff_exists.mp (hval c1 (by simp))
    obtain ⟨lo, hv2⟩ := Option.isSome_iff_exists.mp (hval c2 (by simp))
    have hev' : rest.length % 2 = 0 := by simp at hev; omega
    rw [List.cons_append, List.cons_append, bufferFromHex_cons2 hv1 hv2,
      bufferFromHex_cons2 hv1 hv2, ih hev' (fun c hc => hval c (by simp [hc])),
      List.cons_append]

theorem bufferFromHex_length : ∀ l : List Char, l.length % 2 = 0 →
    (∀ c ∈ l, (hexDigitVal? c).isSome) →
    2 * (bufferFromHex l).length = l.length := by
  intro l
  induction l using twoStepInduction with
  | h0 => intro _ _; simp [bufferFromHex]
  | h1 c => intro hev _; simp at hev
  | h2 c1 c2 rest ih =>
    intro hev hval
    obtain ⟨hi, hv1⟩ := Option.isSome_iff_exists.mp (hval c1 (by simp))
    obtain ⟨lo, hv2⟩ := Option.isSome_iff_exists.mp (hval c2 (by simp))
    have hev' : rest.length % 2 = 0 := by simp at hev; omega
    have := ih hev' (fun c hc => hval c (by simp [hc]))
    rw [bufferFromHex_cons2 hv1 hv2]
    simp at this ⊢
    omega

theorem jsPadStart_length {s : List Char} (h : s.length ≤ 64) :
    (jsPadStart s 64 '0').length = 64 := by
  simp [jsPadStart]
  omega

theorem jsPadStart_valid {s : List Char} (h : ∀ c ∈ s, (hexDigitVal? c).isSome) :
    ∀ c ∈ jsPadStart s 64 '0', (hexDigitVal? c).isSome := by
  intro c hc
  rcases List.mem_append.mp hc with hrep | hs
  · rw [List.eq_of_mem_replicate hrep]
    decide
  · exact h c hs

theorem signLoopTrace_stop {k n : Nat} (h : ¬ k < n) : Bitcoin.signLoopTrace k n = [] := by
  rw [Bitcoin.signLoopTrace]
  simp [h]

theorem signLoopTrace_step {k n : Nat} (h : k < n) :
    Bitcoin.signLoopTrace k n =
      Bitcoin.SignEvent.request k :: Bitcoin.SignEvent.complete k ::
        Bitcoin.signLoopTrace (k + 1) n := by
  rw [Bitcoin.signLoopTrace]
  simp [h]

theorem signLoopTrace_append {k m : Nat} (hkm : k ≤ m) : ∀ n, m ≤ n →
    Bitcoin.signLoopTrace k n = Bitcoin.signLoopTrace k m ++ Bitcoin.signLoopTrace m n := by
  induction m, hkm using Nat.le_induction with
  | base =>
    intro n _
    rw [signLoopTrace_stop (Nat.lt_irrefl k)]
    simp
  | succ m hkm ih =>
    intro n hn
    have hmn : m ≤ n := by omega
    have hm1 : m < m + 1 := Nat.lt_succ_self m
    rw [ih n hmn, ih (m + 1) (Nat.le_succ m), signLoopTrace_step hm1,
      signLoopTrace_step (show m < n by omega), signLoopTrace_stop (Nat.lt_irrefl (m + 1))]
    simp

theorem signLoopTrace_mem_aux {e : Bitcoin.SignEvent} : ∀ d k n, n - k ≤ d →
    e ∈ Bitcoin.signLoopTrace k n →
    ∃ j, k ≤ j ∧ j < n ∧ (e = Bitcoin.SignEvent.request j ∨ e = Bitcoin.SignEvent.complete j) := by
  intro d
  induction d with
  | zero =>
    intro k n hd hmem
    rw [signLoopTrace_stop (by omega)] at hmem
    simp at hmem
  | succ d ih =>
    intro k n hd hmem
    by_cases hk : k < n
    · rw [signLoopTrace_step hk] at hmem
      rcases List.mem_cons.mp hmem with he | hmem'
      · exact ⟨k, le_rfl, hk, Or.inl he⟩
      · rcases List.mem_cons.mp hmem' with he | hmem''
        · exact ⟨k, le_rfl, hk, Or.inr he⟩
        · obtain ⟨j, hj1, hj2, hj3⟩ := ih (k + 1) n (by omega) hmem''
          exact ⟨j, by omega, hj2, hj3⟩
    · rw [signLoopTrace_stop hk] at hmem
      simp at hmem

theorem signLoopTrace_mem {e : Bitcoin.SignEvent} {k n : Nat}
    (hmem : e ∈ Bitcoin.signLoopTrace k n) :
    ∃ j, k ≤ j ∧ j < n ∧ (e = Bitcoin.SignEvent.request j ∨ e = Bitcoin.SignEvent.complete j) :=
  signLoopTrace_mem_aux (n - k) k n le_rfl hmem

/-! ## Claim theorems -/

/-- C1: in `Bitcoin.handleTransaction` the signing loop acquires signatures
strictly sequentially in increasing input-index order: for every transaction
with `n` inputs and every `i` with `i + 1 < n`, the signing request for input
`i + 1` occurs in the trace strictly after the completion of the request for
input `i` — no request for `i + 1` is issued before input `i`'s request has
been awaited and completed. -/
theorem c1_bitcoin_sequential_signing (n i : Nat) (h : i + 1 < n) :
    ∃ A B, Bitcoin.handleTransactionSignTrace n =
        A ++ Bitcoin.SignEvent.request (i + 1) :: B ∧
      Bitcoin.SignEvent.complete i ∈ A ∧
      Bitcoin.SignEvent.request (i + 1) ∉ A := by
  refine ⟨Bitcoin.signLoopTrace 0 (i + 1),
    Bitcoin.SignEvent.complete (i + 1) :: Bitcoin.signLoopTrace (i + 2) n, ?_, ?_, ?_⟩
  · unfold Bitcoin.handleTransactionSignTrace
    rw [signLoopTrace_append (Nat.zero_le (i + 1)) n (le_of_lt h),
      signLoopTrace_step h]
  · rw [signLoopTrace_append (Nat.zero_le i) (i + 1) (Nat.le_succ i),
      signLoopTrace_step (Nat.lt_succ_self i), signLoopTrace_stop (Nat.lt_irrefl (i + 1))]
    simp
  · intro hmem
    obtain ⟨j, _, hj2, hj3⟩ := signLoopTrace_mem hmem
    rcases hj3 with h3 | h3
    · rw [Bitcoin.SignEvent.request.injEq] at h3
      omega
    · exact Bitcoin.SignEvent.noConfusion h3

/-- C1 witness: instance at a 3-input transaction, i = 0. -/
theorem c1_bitcoin_sequential_signing_witness :
    0 + 1 < 3 ∧
    ∃ A B, Bitcoin.handleTransactionSignTrace 3 =
        A ++ Bitcoin.SignEvent.request (0 + 1) :: B ∧
      Bitcoin.SignEvent.complete 0 ∈ A ∧
      Bitcoin.SignEvent.request (0 + 1) ∉ A :=
  ⟨by decide, c1_bitcoin_sequential_signing 3 0 (by decide)⟩

/-- C2: `Bitcoin.parseRSVSignature` never returns a buffer whose length
differs from 64 bytes (first conjunct, for every input whatsoever), and on
every well-formed input — r and s hex strings of at most 64 characters — it
succeeds and returns exactly the 32-byte left-zero-padded r bytes followed by
the 32-byte left-zero-padded s bytes. -/
theorem c2_bitcoin_parseRSVSignature_sixty_four :
    (∀ (sig : RSVSignature) (bs : List Nat),
        Bitcoin.parseRSVSignature sig = some bs → bs.length = 64) ∧
    (∀ sig : RSVSignature, sig.r.length ≤ 64 → sig.s.length ≤ 64 →
      (∀ c ∈ sig.r, (hexDigitVal? c).isSome) →
      (∀ c ∈ sig.s, (hexDigitVal? c).isSome) →
      Bitcoin.parseRSVSignature sig =
        some (bufferFromHex (jsPadStart sig.r 64 '0') ++
          bufferFromHex (jsPadStart sig.s 64 '0')) ∧
      (bufferFromHex (jsPadStart sig.r 64 '0')).length = 32 ∧
      (bufferFromHex (jsPadStart sig.s 64 '0')).length = 32) := by
  constructor
  · intro sig bs h
    unfold Bitcoin.parseRSVSignature at h
    by_cases hlen :
      (bufferFromHex (jsPadStart sig.r 64 '0' ++ jsPadStart sig.s 64 '0')).length = 64
    · rw [if_neg (by omega)] at h
      rw [← Option.some_inj.mp h]
      exact hlen
    · rw [if_pos (by omega)] at h
      exact absurd h (by simp)
  · intro sig hr hs hvr hvs
    have hrval := jsPadStart_valid hvr
    have hsval := jsPadStart_valid hvs
    have hrlen := jsPadStart_length hr
    have hslen := jsPadStart_length hs
    have hrb : 2 * (bufferFromHex (jsPadStart sig.r 64 '0')).length = 64 := by
      rw [bufferFromHex_length _ (by omega) hrval, hrlen]
    have hsb : 2 * (bufferFromHex (jsPadStart sig.s 64 '0')).length = 64 := by
      rw [bufferFromHex_length _ (by omega) hsval, hslen]
    have happ := bufferFromHex_append (jsPadStart sig.s 64 '0')
      (jsPadStart sig.r 64 '0') (by omega) hrval
    refine ⟨?_, by omega, by omega⟩
    show (if (bufferFromHex (jsPadStart sig.r 64 '0' ++ jsPadStart sig.s 64 '0')).length ≠ 64
        then none
        else some (bufferFromHex (jsPadStart sig.r 64 '0' ++ jsPadStart sig.s 64 '0'))) =
      some (bufferFromHex (jsPadStart sig.r 64 '0') ++ bufferFromHex (jsPadStart sig.s 64 '0'))
    rw [happ, if_neg (by simp; omega)]

/-- C2 witness: instance at r = "ab", s = "01". -/
theorem c2_bitcoin_parseRSVSignature_sixty_four_witness :
    (List.replicate 31 0 ++ [171] ++ (List.replicate 31 0 ++ [1]) : List Nat).length = 64 ∧
    (Bitcoin.parseRSVSignature ⟨"ab".data, "01".data, 0⟩ =
      some (bufferFromHex (jsPadStart "ab".data 64 '0') ++
        bufferFromHex (jsPadStart "01".data 64 '0')) ∧
    (bufferFromHex (jsPadStart "ab".data 64 '0')).length = 32 ∧
    (bufferFromHex (jsPadStart "01".data 64 '0')).length = 32) :=
  ⟨c2_bitcoin_parseRSVSignature_sixty_four.1 ⟨"ab".data, "01".data, 0⟩
      (List.replicate 31 0 ++ [171] ++ (List.replicate 31 0 ++ [1])) (by decide),
   c2_bitcoin_parseRSVSignature_sixty_four.2 ⟨"ab".data, "01".data, 0⟩
      (by decide) (by decide) (by decide) (by decide)⟩

/-- C3: for every request (and any fetched fee fields, chain id and nonce, and
any serializer and keccak function supplied by the ethers library),
`EVM.getMPCPayloadAndTransaction` returns exactly one signing payload, its
index is 0, and its payload is the byte sequence of the keccak-256 hash of the
unsigned serialized transaction, the transaction being the request with fee
fields, chain id, nonce and type 2 attached. -/
theorem c3_evm_single_payload (fees : EVM.EVMFeeProperties) (chainId nonce : Nat)
    (unsignedSerialized : EVM.EVMUnsignedTransaction → List Char)
    (keccak256 : List Char → List Char) (transactionRequest : EVM.EVMTransactionRequest) :
    (EVM.getMPCPayloadAndTransaction fees chainId nonce unsignedSerialized keccak256
        transactionRequest).2.length = 1 ∧
    (EVM.getMPCPayloadAndTransaction fees chainId nonce unsignedSerialized keccak256
        transactionRequest).2 =
      [{ index := 0
       , payload := EVM.getBytes (keccak256 (unsignedSerialized
            (EVM.attachGasAndNonce fees chainId nonce transactionRequest))) }] ∧
    (EVM.getMPCPayloadAndTransaction fees chainId nonce unsignedSerialized keccak256
        transactionRequest).1 =
      EVM.attachGasAndNonce fees chainId nonce transactionRequest :=
  ⟨rfl, rfl, rfl⟩

/-- C5: for every well-formed MPCSignature (a 66-character compressed-point
hex for `big_r.affine_point` and a 64-character scalar hex for `s.scalar`),
`toRSV` returns r equal to the elliptic-curve component with its two-character
encoding tag stripped, s equal to the scalar unchanged, and v equal to the
recovery id verbatim; the resulting r and s are 64 hex characters (32 bytes)
each. -/
theorem c5_toRSV_normalization (sig : MPCSignature)
    (hr : sig.big_r.affine_point.length = 66) (hs : sig.s.scalar.length = 64) :
    toRSV sig = { r := sig.big_r.affine_point.drop 2
                , s := sig.s.scalar
                , v := sig.recovery_id } ∧
    (toRSV sig).r.length = 64 ∧ (toRSV sig).s.length = 64 := by
  refine ⟨rfl, ?_, hs⟩
  show (sig.big_r.affine_point.drop 2).length = 64
  rw [List.length_drop, hr]

/-- C5 witness: instance at a 66-character point and 64-character scalar. -/
theorem c5_toRSV_normalization_witness :
    toRSV ⟨⟨'0' :: '3' :: List.replicate 64 'a'⟩, ⟨List.replicate 64 'b'⟩, 1⟩ =
      { r := (('0' :: '3' :: List.replicate 64 'a' : List Char)).drop 2
      , s := List.replicate 64 'b'
      , v := 1 } ∧
    (toRSV ⟨⟨'0' :: '3' :: List.replicate 64 'a'⟩, ⟨List.replicate 64 'b'⟩, 1⟩).r.length = 64 ∧
    (toRSV ⟨⟨'0' :: '3' :: List.replicate 64 'a'⟩, ⟨List.replicate 64 'b'⟩, 1⟩).s.length = 64 :=
  c5_toRSV_normalization ⟨⟨'0' :: '3' :: List.replicate 64 'a'⟩, ⟨List.replicate 64 'b'⟩, 1⟩
    (by decide) (by decide)

/-- C6 counterexample: `EVM.addSignature` silently succeeds when the supplied
signature list pairs a signature with the wrong index. Here the signature
carrying recovery id 1 (issued for a different input than payload index 0) is
supplied at position 0, and `addSignature` serializes with it and returns a
result instead of failing: no `IndexMismatchError` exists in the code. -/
theorem c6_index_mismatch_counterexample :
    EVM.addSignature (fun _ sig => sig.r)
        ⟨1, 1, 21000, 1, 0, 2, "0xb0b".data, 5, []⟩
        [⟨"bb".data, "b1".data, 1⟩, ⟨"aa".data, "a1".data, 0⟩] =
      some "bb".data ∧
    EVM.addSignature (fun _ sig => sig.r)
        ⟨1, 1, 21000, 1, 0, 2, "0xb0b".data, 5, []⟩
        [⟨"bb".data, "b1".data, 1⟩, ⟨"aa".data, "a1".data, 0⟩] ≠ none :=
  ⟨rfl, by decide⟩

/-- C6 amended: neither chain performs any index-mismatch validation. For the
EVM path, `addSignature` applied to any non-empty signature list always
succeeds and serializes with the signature at position 0, whatever input that
signature was actually issued for: a wrongly indexed signature is silently
applied, and no `IndexMismatchError` is ever raised. -/
theorem c6_evm_addSignature_no_index_check
    (serializeSigned : EVM.EVMUnsignedTransaction → RSVSignature → List Char)
    (transaction : EVM.EVMUnsignedTransaction)
    (sig : RSVSignature) (rest : List RSVSignature) :
    EVM.addSignature serializeSigned transaction (sig :: rest) =
      some (serializeSigned transaction (EVM.parseSignature sig)) := by
  simp [EVM.addSignature]

/-- C9: `EVM.addSignature` depends only on the transaction and the first
signature of the list: any two non-empty signature lists agreeing at index 0
produce the same serialized transaction, no matter what stands at the later
indices. -/
theorem c9_evm_addSignature_first_sig_only
    (serializeSigned : EVM.EVMUnsignedTransaction → RSVSignature → List Char)
    (transaction : EVM.EVMUnsignedTransaction)
    (mpcSignatures1 mpcSignatures2 : List RSVSignature)
    (_h1 : mpcSignatures1 ≠ []) (_h2 : mpcSignatures2 ≠ [])
    (h0 : mpcSignatures1[0]? = mpcSignatures2[0]?) :
    EVM.addSignature serializeSigned transaction mpcSignatures1 =
      EVM.addSignature serializeSigned transaction mpcSignatures2 := by
  unfold EVM.addSignature
  rw [h0]

/-- C9 witness: instance at two lists sharing the first signature but
differing at index 1. -/
theorem c9_evm_addSignature_first_sig_only_witness :
    EVM.addSignature (fun _ sig => sig.s)
        ⟨7, 2, 30000, 1, 3, 2, "0xd00d".data, 9, []⟩
        [⟨"aa".data, "a1".data, 0⟩, ⟨"bb".data, "b1".data, 1⟩] =
      EVM.addSignature (fun _ sig => sig.s)
        ⟨7, 2, 30000, 1, 3, 2, "0xd00d".data, 9, []⟩
        [⟨"aa".data, "a1".data, 0⟩] :=
  c9_evm_addSignature_first_sig_only (fun _ sig => sig.s)
    ⟨7, 2, 30000, 1, 3, 2, "0xd00d".data, 9, []⟩
    [⟨"aa".data, "a1".data, 0⟩, ⟨"bb".data, "b1".data, 1⟩]
    [⟨"aa".data, "a1".data, 0⟩] (by decide) (by decide) (by decide)

theorem hexOfBytes_nil : hexOfBytes [] = [] := rfl

theorem hexOfBytes_cons (b : Nat) (bs : List Nat) :
    hexOfBytes (b :: bs) = hexOfByte b ++ hexOfBytes bs := by
  simp [hexOfBytes]

theorem hexOfBytes_length (bs : List Nat) : (hexOfBytes bs).length = 2 * bs.length := by
  induction bs with
  | nil => simp [hexOfBytes_nil]
  | cons b bs ih =>
    rw [hexOfBytes_cons]
    simp [hexOfByte] at ih ⊢
    omega

theorem getLast?_drop_of_lt {α : Type} : ∀ (l : List α) (n : Nat), n < l.length →
    (l.drop n).getLast? = l.getLast? := by
  intro l
  induction l with
  | nil => intro n hn; simp at hn
  | cons c rest ih =>
    intro n hn
    match n with
    | 0 => rfl
    | n + 1 =>
      have hn' : n < rest.length := by simp at hn; omega
      have hne : rest ≠ [] := by
        intro hcon
        rw [hcon] at hn'
        simp at hn'
      rw [List.drop_succ_cons, ih n hn', ← List.singleton_append,
        List.getLast?_append_of_ne_nil _ hne]

theorem hexOfBytes_getLast? : ∀ bs : List Nat,
    (hexOfBytes bs).getLast? = bs.getLast?.map (fun b => hexOfNibble (b % 16)) := by
  intro bs
  induction bs with
  | nil => simp [hexOfBytes_nil]
  | cons b bs ih =>
    rw [hexOfBytes_cons]
    match bs, ih with
    | [], _ => simp [hexOfBytes_nil, hexOfByte]
    | b2 :: rest, ih =>
      have hne : hexOfBytes (b2 :: rest) ≠ [] := by
        intro hcon
        have := hexOfBytes_length (b2 :: rest)
        rw [hcon] at this
        simp at this
      rw [List.getLast?_append_of_ne_nil _ hne, ih, List.getLast?_cons_cons]

theorem hexDigitVal?_hexOfNibble {n : Nat} (h : n < 16) :
    hexDigitVal? (hexOfNibble n) = some n := by
  interval_cases n <;> decide


theorem jsStartsWith_04 (t : List Char) :
    jsStartsWith (['0', '4'] ++ t) (['0', '4']) = true := by
  simp [jsStartsWith]

theorem drop2_04 (t : List Char) : List.drop 2 (['0', '4'] ++ t) = t := rfl

/-- C7 counterexample: the root key `secp256k1:zz` base-decodes to 2 bytes
instead of 64, yet `najToPubKey` with `compress: false` returns a derived key
(`04` plus the 2-byte hex) instead of failing with a derivation error; the
malformed key is silently accepted. -/
theorem c7_derivation_error_counterexample :
    najToPubKey "secp256k1:zz".data false = some "040d23".data ∧
    najToPubKey "secp256k1:zz".data false ≠ none := by
  constructor
  · decide
  · decide

/-- C7 amended: key derivation rejects a root key of wrong byte length only
when compression is requested: `najToPubKey` with `compress: true` fails
(`Invalid uncompressed public key length`) whenever the base-decoded key is
not 64 bytes; with `compress: false` (and in `EVM.deriveAddressAndPublicKey`,
which validates nothing) the malformed key is accepted, not rejected. -/
theorem c7_najToPubKey_compressed_rejects (s keyPart : List Char) (decoded : List Nat)
    (hpart : (jsSplit ':' s)[1]? = some keyPart)
    (hdec : base_decode keyPart = some decoded)
    (hlen : decoded.length ≠ 64) :
    najToPubKey s true = none := by
  have hhl := hexOfBytes_length decoded
  simp only [najToPubKey, hpart, hdec, Bool.not_true, Bool.false_eq_true, if_false,
    jsStartsWith_04, if_true, drop2_04]
  rw [if_pos (by omega)]

/-- C7 amended witness: instance at the one-byte root key `secp256k1:z`. -/
theorem c7_najToPubKey_compressed_rejects_witness :
    (jsSplit ':' "secp256k1:z".data)[1]? = some "z".data ∧
    base_decode "z".data = some [57] ∧
    ([57] : List Nat).length ≠ 64 ∧
    najToPubKey "secp256k1:z".data true = none :=
  ⟨by decide, by decide, by decide,
   c7_najToPubKey_compressed_rejects "secp256k1:z".data "z".data [57]
     (by decide) (by decide) (by decide)⟩

/-- C8: for every NAJ-encoded key whose base-decoded payload is 64 bytes (128
hex characters), `najToPubKey` with `compress: true` returns a 66-hex-character
(33-byte) value: a tag that is `02` when the y coordinate is even (its last
byte, equivalently its last hex digit, is even) and `03` when it is odd,
followed by the 64 hex characters of the x coordinate. -/
theorem c8_najToPubKey_compression (s keyPart : List Char) (decoded : List Nat)
    (hpart : (jsSplit ':' s)[1]? = some keyPart)
    (hdec : base_decode keyPart = some decoded)
    (hlen : decoded.length = 64) :
    najToPubKey s true =
      some ((if decoded.getLastD 0 % 2 = 0 then "02".data else "03".data) ++
        (hexOfBytes decoded).take 64) ∧
    ((if decoded.getLastD 0 % 2 = 0 then "02".data else "03".data) ++
      (hexOfBytes decoded).take 64).length = 66 := by
  have hhl : (hexOfBytes decoded).length = 128 := by rw [hexOfBytes_length, hlen]
  constructor
  · have hne : decoded ≠ [] := by
      intro h
      rw [h] at hlen
      simp at hlen
    obtain ⟨b, hb⟩ := Option.isSome_iff_exists.mp (List.getLast?_isSome.mpr hne)
    have hlast : (List.drop 64 (hexOfBytes decoded)).getLast? =
        some (hexOfNibble (b % 16)) := by
      rw [getLast?_drop_of_lt _ 64 (by omega), hexOfBytes_getLast?, hb]
      rfl
    have hgd : decoded.getLastD 0 = b := by
      rw [List.getLastD_eq_getLast?, hb]
      rfl
    have hpar : b % 16 % 2 = b % 2 := Nat.mod_mod_of_dvd b (by norm_num)
    simp only [najToPubKey, hpart, hdec, Bool.not_true, Bool.false_eq_true, if_false,
      jsStartsWith_04, if_true, drop2_04]
    rw [if_neg (by omega), hlast]
    simp only [Option.some_bind, hexDigitVal?_hexOfNibble (Nat.mod_lt b (by norm_num)),
      Option.getD_some, hpar, hgd]
  · have h64 : ((hexOfBytes decoded).take 64).length = 64 := by
      rw [List.length_take, hhl]
      omega
    split_ifs <;> simp [h64]

set_option maxRecDepth 8192 in
/-- C8 witness: instance at a NAJ key whose payload decodes to the 64 bytes
`0x11, …, 0x11, 0x12`. -/
theorem c8_najToPubKey_compression_witness :
    (jsSplit ':' ("secp256k1:LnrbZDPq59Ywk2Ddy9zVxg7KVaDBPRpikn7V7A3ZWgEb2JK6JYLkQKJCbqyeji46k7svBPp5UsFu4v4mh1DGzTK".data))[1]? =
      some "LnrbZDPq59Ywk2Ddy9zVxg7KVaDBPRpikn7V7A3ZWgEb2JK6JYLkQKJCbqyeji46k7svBPp5UsFu4v4mh1DGzTK".data ∧
    base_decode "LnrbZDPq59Ywk2Ddy9zVxg7KVaDBPRpikn7V7A3ZWgEb2JK6JYLkQKJCbqyeji46k7svBPp5UsFu4v4mh1DGzTK".data =
      some (List.replicate 63 17 ++ [18]) ∧
    (List.replicate 63 17 ++ [18] : List Nat).length = 64 ∧
    (najToPubKey ("secp256k1:LnrbZDPq59Ywk2Ddy9zVxg7KVaDBPRpikn7V7A3ZWgEb2JK6JYLkQKJCbqyeji46k7svBPp5UsFu4v4mh1DGzTK".data) true =
      some ((if (List.replicate 63 17 ++ [18] : List Nat).getLastD 0 % 2 = 0
          then "02".data else "03".data) ++
        (hexOfBytes (List.replicate 63 17 ++ [18])).take 64) ∧
    ((if (List.replicate 63 17 ++ [18] : List Nat).getLastD 0 % 2 = 0
        then "02".data else "03".data) ++
      (hexOfBytes (List.replicate 63 17 ++ [18])).take 64).length = 66) :=
  ⟨by decide, by decide, by decide,
   c8_najToPubKey_compression
     ("secp256k1:LnrbZDPq59Ywk2Ddy9zVxg7KVaDBPRpikn7V7A3ZWgEb2JK6JYLkQKJCbqyeji46k7svBPp5UsFu4v4mh1DGzTK".data)
     ("LnrbZDPq59Ywk2Ddy9zVxg7KVaDBPRpikn7V7A3ZWgEb2JK6JYLkQKJCbqyeji46k7svBPp5UsFu4v4mh1DGzTK".data)
     (List.replicate 63 17 ++ [18])
     (by decide) (by decide) (by decide)⟩

/-- C10: `najToPubKey` with `compress: false` performs no length validation:
for every input string whose second `':'`-part base-decodes successfully, it
returns `04` followed by the hex encoding of the decoded bytes unchanged,
whatever their number — the wrong-length check (`Invalid uncompressed public
key length`) is reached only on the `compress: true` branch, so a root key of
wrong byte length is returned unmodified rather than rejected. -/
theorem c10_najToPubKey_uncompressed_no_validation (s keyPart : List Char)
    (decoded : List Nat)
    (hpart : (jsSplit ':' s)[1]? = some keyPart)
    (hdec : base_decode keyPart = some decoded) :
    najToPubKey s false = some ("04".data ++ hexOfBytes decoded) := by
  simp only [najToPubKey, hpart, hdec, Bool.not_false, if_true]

/-- C10 witness: instance at the one-byte key `ed25519:2`, length-invalid yet
returned unmodified. -/
theorem c10_najToPubKey_uncompressed_no_validation_witness :
    (jsSplit ':' "ed25519:2".data)[1]? = some "2".data ∧
    base_decode "2".data = some [1] ∧
    najToPubKey "ed25519:2".data false = some ("04".data ++ hexOfBytes [1]) :=
  ⟨by decide, by decide,
   c10_najToPubKey_uncompressed_no_validation "ed25519:2".data "2".data [1]
     (by decide) (by decide)⟩

/-- C4: for every uncompressed derived public key (one starting with `04`)
returned by the contract, and any keccak-256 whose hex output is the standard
66 characters (`0x` plus 64 hex digits), `EVM.deriveAddressAndPublicKey`
returns as address `0x` followed by the last 40 hex characters (20 bytes) of
the keccak-256 hash of the key bytes with the `04` tag removed, and returns
the uncompressed public key itself, unchanged, as the public key. -/
theorem c4_evm_derive_address (keccak256 : List Nat → List Char)
    (uncompressedPubKey : List Char)
    (h04 : uncompressedPubKey.take 2 = "04".data)
    (hkl : (keccak256 (bufferFromHex (uncompressedPubKey.drop 2))).length = 66) :
    EVM.deriveAddressAndPublicKey keccak256 uncompressedPubKey =
      some ("0x".data ++
          (keccak256 (bufferFromHex (uncompressedPubKey.drop 2))).drop
            ((keccak256 (bufferFromHex (uncompressedPubKey.drop 2))).length - 40),
        uncompressedPubKey) ∧
    ((keccak256 (bufferFromHex (uncompressedPubKey.drop 2))).drop
      ((keccak256 (bufferFromHex (uncompressedPubKey.drop 2))).length - 40)).length = 40 := by
  have hne : uncompressedPubKey ≠ [] := by
    intro h
    rw [h] at h04
    exact absurd h04 (by decide)
  have hsw : jsStartsWith uncompressedPubKey "04".data = true := by
    simp only [jsStartsWith]
    rw [show ("04".data : List Char).length = 2 from rfl, h04]
    simp
  constructor
  · simp only [EVM.deriveAddressAndPublicKey, hne, if_false, hsw, if_true]
  · rw [List.length_drop, hkl]

/-- C4 witness: instance at the key `0411ab` and a constant keccak function
returning `0x` plus 64 `c` characters. -/
theorem c4_evm_derive_address_witness :
    ("0411ab".data.take 2 = "04".data) ∧
    (((fun (_ : List Nat) => "0x".data ++ List.replicate 64 'c')
        (bufferFromHex ("0411ab".data.drop 2))).length = 66) ∧
    (EVM.deriveAddressAndPublicKey
        (fun (_ : List Nat) => "0x".data ++ List.replicate 64 'c') "0411ab".data =
      some ("0x".data ++
          ("0x".data ++ List.replicate 64 'c').drop
            (("0x".data ++ List.replicate 64 'c').length - 40),
        "0411ab".data) ∧
    (("0x".data ++ List.replicate 64 'c').drop
      (("0x".data ++ List.replicate 64 'c').length - 40)).length = 40) :=
  ⟨by decide, by decide,
   c4_evm_derive_address (fun (_ : List Nat) => "0x".data ++ List.replicate 64 'c')
     "0411ab".data (by decide) (by decide)⟩
